import Mathlib

/-!
Verification development for `GitHubreposcan.py`, a scanner that walks a
GitHub repository tree (including submodules), flags lines that look like
hardcoded credentials via one regular expression, and writes the findings
to a spreadsheet.

Strings are modelled as `List Char` (Python `str` is a sequence of code
points).  The regular expression

  (password|passwd|pwd|secret|token|key)\s*[:=]\s*[quote]?([^ws-quote-amp-semi]+)[quote]?

applied with `re.search(..., re.IGNORECASE)` is embedded directly: the
pattern has no ambiguous backtracking (the character classes of adjacent
pieces are disjoint, and the optional quote cannot start the value class),
so leftmost search with ordered alternation is an exact model.
-/

namespace GithubScan

/-- The single quote character. -/
def squote : Char := Char.ofNat 39

/-- The double quote character. -/
def dquote : Char := Char.ofNat 34

/-- Python regex `\s` on `str` (also the characters stripped by `str.strip()`):
whitespace code points.  ASCII part is `[ \t\n\r\x0b\x0c]`; the remaining
entries are the Unicode whitespace characters Python recognises. -/
def isSpace (c : Char) : Bool :=
  c = ' ' || c = '\t' || c = '\n' || c = '\r' ||
  c = Char.ofNat 0x0b || c = Char.ofNat 0x0c ||
  c = Char.ofNat 0x1c || c = Char.ofNat 0x1d || c = Char.ofNat 0x1e ||
  c = Char.ofNat 0x1f || c = Char.ofNat 0x85 || c = Char.ofNat 0xa0 ||
  c = Char.ofNat 0x1680 ||
  (0x2000 ≤ c.toNat && c.toNat ≤ 0x200a) ||
  c = Char.ofNat 0x2028 || c = Char.ofNat 0x2029 || c = Char.ofNat 0x202f ||
  c = Char.ofNat 0x205f || c = Char.ofNat 0x3000

/-- The character class `[^\s'"&;]` of group 2 of `PASSWORD_REGEX`:
anything except whitespace, either quote, `&` and `;`. -/
def isValueChar (c : Char) : Bool :=
  !(isSpace c) && c ≠ squote && c ≠ dquote && c ≠ '&' && c ≠ ';'

/-- Line boundaries recognised by Python `str.splitlines()`
(besides the two-character boundary `\r\n`, handled separately). -/
def isLineBreak (c : Char) : Bool :=
  c = '\n' || c = '\r' || c = Char.ofNat 0x0b || c = Char.ofNat 0x0c ||
  c = Char.ofNat 0x1c || c = Char.ofNat 0x1d || c = Char.ofNat 0x1e ||
  c = Char.ofNat 0x85 || c = Char.ofNat 0x2028 || c = Char.ofNat 0x2029

/-- Python `str.splitlines()`: split at line boundaries, treating `\r\n` as a
single boundary; a trailing boundary does not produce an extra empty line. -/
def pySplitlinesAux : List Char → List Char → List (List Char)
  | [], acc => if acc.isEmpty then [] else [acc.reverse]
  | c :: cs, acc =>
    if c = '\r' then
      match cs with
      | [] => [acc.reverse]
      | d :: ds =>
        if d = '\n' then acc.reverse :: pySplitlinesAux ds []
        else acc.reverse :: pySplitlinesAux (d :: ds) []
    else if isLineBreak c then acc.reverse :: pySplitlinesAux cs []
    else pySplitlinesAux cs (c :: acc)

/-- Python `str.splitlines()`. -/
def pySplitlines (s : List Char) : List (List Char) :=
  pySplitlinesAux s []

/-- Python `str.strip()`: remove leading and trailing whitespace. -/
def pyStrip (s : List Char) : List Char :=
  ((s.dropWhile isSpace).reverse.dropWhile isSpace).reverse

/-- The six keyword alternatives of `PASSWORD_REGEX`, in the order the regex
alternation tries them: `password|passwd|pwd|secret|token|key`. -/
def keywords : List (List Char) :=
  [("password").data, ("passwd").data, ("pwd").data,
   ("secret").data, ("token").data, ("key").data]

/-- Match one (lowercase) keyword literal case-insensitively at the head of
`s` (the effect of `re.IGNORECASE` on an ASCII literal): on success return
the rest of the input. -/
def matchKwCI : List Char → List Char → Option (List Char)
  | [], s => some s
  | _ :: _, [] => none
  | k :: ks, c :: cs => if c.toLower = k then matchKwCI ks cs else none

/-- Drop `\s*`: the maximal run of whitespace (exact, because in the regex the
character following each `\s*` is never itself whitespace). -/
def dropSpaces : List Char → List Char
  | [] => []
  | c :: cs => if isSpace c then dropSpaces cs else c :: cs

/-- Maximal run of value-class characters and the remaining input
(the greedy `([^\s'"&;]+)` — nothing after it forces backtracking,
the trailing optional quote included). -/
def takeValue : List Char → List Char × List Char
  | [] => ([], [])
  | c :: cs =>
    if isValueChar c then
      let r := takeValue cs
      (c :: r.1, r.2)
    else ([], c :: cs)

/-- Match `['"]?([^\s'"&;]+)` and return group 2.  The greedy optional quote
consumes a leading quote when present; since quotes are excluded from the
value class, the backtracking branch that leaves the quote in place can never
succeed, so this deterministic version is exact. -/
def matchValue : List Char → Option (List Char)
  | [] => none
  | c :: cs =>
    if c = squote || c = dquote then
      match cs with
      | [] => none
      | d :: _ => if isValueChar d then some (takeValue cs).1 else none
    else if isValueChar c then some (takeValue (c :: cs)).1
    else none

/-- Match the part of `PASSWORD_REGEX` after the keyword:
`\s*[:=]\s*['"]?([^\s'"&;]+)['"]?`, returning group 2. -/
def matchAfterKeyword (s : List Char) : Option (List Char) :=
  match dropSpaces s with
  | [] => none
  | c :: rest =>
    if c = ':' || c = '=' then matchValue (dropSpaces rest)
    else none

/-- Try the keyword alternatives in regex alternation order at a fixed start
position; on a failed continuation, backtrack to the next alternative. -/
def tryKeywords : List (List Char) → List Char → Option (List Char)
  | [], _ => none
  | k :: ks, s =>
    match matchKwCI k s with
    | some rest =>
      match matchAfterKeyword rest with
      | some v => some v
      | none => tryKeywords ks s
    | none => tryKeywords ks s

/-- Model of `re.search(PASSWORD_REGEX, line, re.IGNORECASE)`, returning
group 2 of the leftmost match: try each start position from the left. -/
def searchLine : List Char → Option (List Char)
  | [] => none
  | c :: cs =>
    match tryKeywords keywords (c :: cs) with
    | some v => some v
    | none => searchLine cs

/-- The loop body of `check_file_for_passwords`: scan the numbered lines,
recording `(match.group(2), i + 1, line.strip())` for each line where
`re.search` succeeds.  `i` is the 0-based index of the first line of `ls`. -/
def checkLines : List (List Char) → Nat → List (List Char × Nat × List Char)
  | [], _ => []
  | l :: ls, i =>
    match searchLine l with
    | some pw => (pw, i + 1, pyStrip l) :: checkLines ls (i + 1)
    | none => checkLines ls (i + 1)

/-- Model of `check_file_for_passwords(file_content, file_path)`: split the content
into lines and collect `(matched string, 1-based line number, stripped line)`
for every line on which the regex search succeeds.  The `file_path` argument
is accepted (as in the source) but never used by the function body. -/
def check_file_for_passwords (file_content : List Char) (file_path : List Char) :
    List (List Char × Nat × List Char) :=
  checkLines (pySplitlines file_content) 0

/-! ### The tree walker (`process_repository`) -/

/-- One repository content entry, as returned by `repo.get_contents`.  The
`content.type` string of the API is reflected in the constructor; a `file`
entry carries the result of `content.decoded_content.decode("utf-8",
errors="ignore")`, with `none` modelling a read/decode access that raises
(caught by the per-file `try`). -/
inductive Entry where
  | file (path : List Char) (decoded : Option (List Char))
  | dir (path : List Char)
  | submodule (path : List Char)
  | other (ty : List Char) (path : List Char)
deriving DecidableEq, Repr

/-- One repository as seen through the content provider: its root listing
(`get_contents("")`), its per-directory listings (`get_contents(path)`), and
submodule resolution (`get_submodule(path).module()`), where `none` models a
resolution that raises or returns a falsy repository object.  Submodules
reference repositories by an identifier so that reference cycles between
repositories are expressible. -/
structure RepoData where
  rootContents : List Entry
  dirContents : List Char → List Entry
  subs : List Char → Option Nat

/-- The universe of repositories reachable during one scan, indexed by
repository identifier. -/
def World := Nat → RepoData

/-- A reported candidate credential:
`(file_path, matched_string, line_number, full_line)`. -/
abbrev Finding := List Char × List Char × Nat × List Char

/-- Observable per-entry behaviour of the walk, used to state traversal
properties: which paths were scanned, skipped, listed, entered, or logged. -/
inductive Event where
  | scanned (path : List Char)
  | skipped (path : List Char)
  | readError (path : List Char)
  | dirListed (path : List Char)
  | subEntered (path : List Char)
  | subFailed (path : List Char)
  | unknownType (ty : List Char) (path : List Char)
deriving DecidableEq, Repr

/-- The `while contents:` loop of `process_repository`, with explicit fuel
(the Python loop and its cross-repository recursion have no structural
termination argument; `none` means the computation did not complete within
`fuel` steps).  State: the current repository `rid`, the pending-entry queue
`q` (popped at the front, extended at the back), and the shared
`processed_files` set `vis`.  Returns the findings in traversal order, the
final visited set, and the event trace. -/
def runLoop : Nat → World → Nat → List Entry → List (List Char) →
    Option (List Finding × List (List Char) × List Event)
  | 0, _, _, _, _ => none
  | _ + 1, _, _, [], vis => some ([], vis, [])
  | fuel + 1, w, rid, e :: rest, vis =>
    match e with
    | .file p c =>
      if p ∈ vis then
        (runLoop fuel w rid rest vis).map
          (fun r => (r.1, r.2.1, Event.skipped p :: r.2.2))
      else
        match c with
        | some content =>
          let fs0 := (check_file_for_passwords content p).map
            (fun m => (p, m.1, m.2.1, m.2.2))
          (runLoop fuel w rid rest (p :: vis)).map
            (fun r => (fs0 ++ r.1, r.2.1, Event.scanned p :: r.2.2))
        | none =>
          (runLoop fuel w rid rest (p :: vis)).map
            (fun r => (r.1, r.2.1, Event.readError p :: r.2.2))
    | .dir p =>
      (runLoop fuel w rid (rest ++ (w rid).dirContents p) vis).map
        (fun r => (r.1, r.2.1, Event.dirListed p :: r.2.2))
    | .submodule p =>
      match (w rid).subs p with
      | none =>
        (runLoop fuel w rid rest vis).map
          (fun r => (r.1, r.2.1, Event.subFailed p :: r.2.2))
      | some rid2 =>
        match runLoop fuel w rid2 (w rid2).rootContents vis with
        | none => none
        | some (fs1, v1, tr1) =>
          (runLoop fuel w rid rest v1).map
            (fun r => (fs1 ++ r.1, r.2.1, Event.subEntered p :: tr1 ++ r.2.2))
    | .other ty p =>
      (runLoop fuel w rid rest vis).map
        (fun r => (r.1, r.2.1, Event.unknownType ty p :: r.2.2))

/-- Model of `process_repository(repo, processed_files)`: run the walk from
the root listing of repository `rid`. -/
def process_repository (fuel : Nat) (w : World) (rid : Nat)
    (vis : List (List Char)) :
    Option (List Finding × List (List Char) × List Event) :=
  runLoop fuel w rid (w rid).rootContents vis

/-! ### The report writer (`write_to_excel`) -/

/-- A spreadsheet cell value: `write_to_excel` writes strings and the integer
line number. -/
inductive CellVal where
  | str (s : List Char)
  | nat (n : Nat)
deriving DecidableEq, Repr

/-- The fixed header row written at `START_ROW`. -/
def headerRow : List CellVal :=
  [CellVal.str ("File Path").data, CellVal.str ("Matched String").data,
   CellVal.str ("Line Number").data, CellVal.str ("Full Line").data]

/-- Model of `write_to_excel(results)`: the rectangular table written to the sheet —
the header row at row `START_ROW = 1`, then for each finding, in order, one
row with the four components in columns `START_COL .. START_COL + 3`. -/
def write_to_excel (results : List Finding) : List (List CellVal) :=
  headerRow ::
    results.map (fun r =>
      [CellVal.str r.1, CellVal.str r.2.1, CellVal.nat r.2.2.1,
       CellVal.str r.2.2.2])

/-! ### The driver (`main`) -/

/-- The two configuration values read from the environment. -/
structure Env where
  github_token : Option (List Char)
  github_repo : Option (List Char)

/-- Python truthiness test `not value` for `os.environ.get` results: true when
the variable is unset or set to the empty string. -/
def pyFalsy : Option (List Char) → Bool
  | none => true
  | some s => s.isEmpty

/-- The observable outcome of `main`: which early-return branch was taken, or
the table handed to the writer. -/
inductive MainOutcome where
  | missingToken
  | missingRepo
  | connectError
  | noFindings
  | wroteReport (table : List (List CellVal))
deriving DecidableEq, Repr

/-- Model of `main()`: check `GITHUB_TOKEN`, then `GITHUB_REPO`, then the GitHub
connection/repository lookup (`connectOk` models whether
`Github(token).get_repo(repo_name)` succeeds), then walk the repository and
either write the report (non-empty results) or report no findings.  `none`
propagates a walk that does not complete within `fuel`. -/
def main (env : Env) (connectOk : Bool) (fuel : Nat) (w : World)
    (rootId : Nat) : Option MainOutcome :=
  if pyFalsy env.github_token then some MainOutcome.missingToken
  else if pyFalsy env.github_repo then some MainOutcome.missingRepo
  else if !connectOk then some MainOutcome.connectError
  else
    match process_repository fuel w rootId [] with
    | none => none
    | some (results, _, _) =>
      if results.isEmpty then some MainOutcome.noFindings
      else some (MainOutcome.wroteReport (write_to_excel results))

/-! ### Lemmas about the matcher -/

theorem isValueChar_not_space {c : Char} (h : isValueChar c = true) :
    isSpace c = false := by
  simp only [isValueChar, Bool.and_eq_true, Bool.not_eq_true',
    decide_eq_true_eq] at h
  exact h.1.1.1.1

theorem isValueChar_not_quote {c : Char} (h : isValueChar c = true) :
    (c = squote || c = dquote) = false := by
  simp only [isValueChar, Bool.and_eq_true, Bool.not_eq_true',
    decide_eq_true_eq] at h
  simp [h.1.1.1.2, h.1.1.2]

theorem dropSpaces_not_space {c : Char} (h : isSpace c = false)
    (cs : List Char) : dropSpaces (c :: cs) = c :: cs := by
  simp [dropSpaces, h]

theorem dropSpaces_all_space {sp : List Char}
    (h : ∀ c ∈ sp, isSpace c = true) (rest : List Char) :
    dropSpaces (sp ++ rest) = dropSpaces rest := by
  induction sp with
  | nil => rfl
  | cons c cs ih =>
    have hc : isSpace c = true := h c (by simp)
    simp only [List.cons_append, dropSpaces, hc, if_true]
    exact ih (fun d hd => h d (by simp [hd]))

theorem takeValue_all {v : List Char} (h : ∀ c ∈ v, isValueChar c = true) :
    takeValue v = (v, []) := by
  induction v with
  | nil => rfl
  | cons c cs ih =>
    have hc : isValueChar c = true := h c (by simp)
    simp [takeValue, hc, ih (fun d hd => h d (by simp [hd]))]

theorem takeValue_stop {v : List Char} (h : ∀ c ∈ v, isValueChar c = true)
    {q : Char} (hq : isValueChar q = false) (rest : List Char) :
    takeValue (v ++ q :: rest) = (v, q :: rest) := by
  induction v with
  | nil => simp [takeValue, hq]
  | cons c cs ih =>
    have hc : isValueChar c = true := h c (by simp)
    simp [takeValue, hc, ih (fun d hd => h d (by simp [hd]))]

theorem quote_not_value {q : Char} (hq : q = squote ∨ q = dquote) :
    isValueChar q = false := by
  rcases hq with rfl | rfl <;> rfl

theorem quote_not_space {q : Char} (hq : q = squote ∨ q = dquote) :
    isSpace q = false := by
  rcases hq with rfl | rfl <;> rfl

theorem matchValue_plain {v : List Char} (hne : v ≠ [])
    (hall : ∀ c ∈ v, isValueChar c = true) : matchValue v = some v := by
  cases v with
  | nil => exact absurd rfl hne
  | cons d v' =>
    have hd : isValueChar d = true := hall d (by simp)
    simp [matchValue, isValueChar_not_quote hd, hd, takeValue_all hall]

theorem matchValue_quoted {q qe : Char} (hq : q = squote ∨ q = dquote)
    (hqe : qe = squote ∨ qe = dquote) {v : List Char} (hne : v ≠ [])
    (hall : ∀ c ∈ v, isValueChar c = true) :
    matchValue (q :: (v ++ [qe])) = some v := by
  cases v with
  | nil => exact absurd rfl hne
  | cons d v' =>
    have hd : isValueChar d = true := hall d (by simp)
    have hqb : (q = squote || q = dquote) = true := by
      rcases hq with rfl | rfl <;> simp
    have hstop := takeValue_stop hall (quote_not_value hqe) ([] : List Char)
    simp only [matchValue, hqb, if_true, List.cons_append, hd, if_true]
    simp only [List.cons_append] at hstop
    simp [hstop]

theorem matchAfterKeyword_cons_space {c : Char} (h : isSpace c = true)
    (s : List Char) : matchAfterKeyword (c :: s) = matchAfterKeyword s := by
  simp [matchAfterKeyword, dropSpaces, h]

theorem matchAfterKeyword_sep {sep : Char} (hsep : sep = ':' ∨ sep = '=')
    {sp1 : List Char} (hsp1 : ∀ c ∈ sp1, isSpace c = true) (rest : List Char) :
    matchAfterKeyword (sp1 ++ sep :: rest) = matchValue (dropSpaces rest) := by
  induction sp1 with
  | nil => rcases hsep with rfl | rfl <;> rfl
  | cons c cs ih =>
    rw [List.cons_append, matchAfterKeyword_cons_space (hsp1 c (by simp))]
    exact ih (fun d hd => hsp1 d (by simp [hd]))

theorem searchLine_cons (c : Char) (cs : List Char) :
    searchLine (c :: cs) =
      (match tryKeywords keywords (c :: cs) with
       | some v => some v
       | none => searchLine cs) := rfl

/-- At a line starting with one of the keyword literals, the search succeeds
exactly when the rest of the regex matches what follows the keyword; the
alternation tries the keywords in order, and the other five alternatives all
fail inside the keyword itself. -/
theorem searchLine_kw (kw : List Char) (hkw : kw ∈ keywords)
    {rest v : List Char} (h : matchAfterKeyword rest = some v) :
    searchLine (kw ++ rest) = some v := by
  simp only [keywords, List.mem_cons, List.not_mem_nil, or_false] at hkw
  rcases hkw with rfl | rfl | rfl | rfl | rfl | rfl
  · rw [show ("password").data ++ rest = 'p' :: (("assword").data ++ rest) from rfl,
      searchLine_cons,
      show tryKeywords keywords ('p' :: (("assword").data ++ rest)) =
        (match matchAfterKeyword rest with
         | some v' => some v'
         | none => none) from rfl, h]
  · rw [show ("passwd").data ++ rest = 'p' :: (("asswd").data ++ rest) from rfl,
      searchLine_cons,
      show tryKeywords keywords ('p' :: (("asswd").data ++ rest)) =
        (match matchAfterKeyword rest with
         | some v' => some v'
         | none => none) from rfl, h]
  · rw [show ("pwd").data ++ rest = 'p' :: (("wd").data ++ rest) from rfl,
      searchLine_cons,
      show tryKeywords keywords ('p' :: (("wd").data ++ rest)) =
        (match matchAfterKeyword rest with
         | some v' => some v'
         | none => none) from rfl, h]
  · rw [show ("secret").data ++ rest = 's' :: (("ecret").data ++ rest) from rfl,
      searchLine_cons,
      show tryKeywords keywords ('s' :: (("ecret").data ++ rest)) =
        (match matchAfterKeyword rest with
         | some v' => some v'
         | none => none) from rfl, h]
  · rw [show ("token").data ++ rest = 't' :: (("oken").data ++ rest) from rfl,
      searchLine_cons,
      show tryKeywords keywords ('t' :: (("oken").data ++ rest)) =
        (match matchAfterKeyword rest with
         | some v' => some v'
         | none => none) from rfl, h]
  · rw [show ("key").data ++ rest = 'k' :: (("ey").data ++ rest) from rfl,
      searchLine_cons,
      show tryKeywords keywords ('k' :: (("ey").data ++ rest)) =
        (match matchAfterKeyword rest with
         | some v' => some v'
         | none => none) from rfl, h]

/-- A line contains one of the six keywords, matched case-insensitively, as a
substring: the lowercased line splits around the keyword literal. -/
def containsKeywordCI (line : List Char) : Prop :=
  ∃ pre kw post, kw ∈ keywords ∧
    line.map Char.toLower = pre ++ kw ++ post

theorem matchKwCI_toLower : ∀ (k s r : List Char), matchKwCI k s = some r →
    s.map Char.toLower = k ++ r.map Char.toLower := by
  intro k
  induction k with
  | nil =>
    intro s r h
    simp only [matchKwCI, Option.some.injEq] at h
    simp [h]
  | cons kc ks ih =>
    intro s r h
    cases s with
    | nil => exact absurd h (by simp [matchKwCI])
    | cons c cs =>
      simp only [matchKwCI] at h
      by_cases hc : c.toLower = kc
      · rw [if_pos hc] at h
        simp [ih cs r h, hc]
      · rw [if_neg hc] at h
        exact absurd h (by simp)

theorem tryKeywords_some_kw : ∀ (ks : List (List Char)) (s v : List Char),
    tryKeywords ks s = some v → ∃ k ∈ ks, ∃ r, matchKwCI k s = some r := by
  intro ks
  induction ks with
  | nil => intro s v h; exact absurd h (by simp [tryKeywords])
  | cons k ks ih =>
    intro s v h
    simp only [tryKeywords] at h
    cases hm : matchKwCI k s with
    | some rest => exact ⟨k, by simp, rest, hm⟩
    | none =>
      rw [hm] at h
      obtain ⟨k', hk', r, hr⟩ := ih s v h
      exact ⟨k', by simp [hk'], r, hr⟩

theorem searchLine_some_contains : ∀ (line v : List Char),
    searchLine line = some v → containsKeywordCI line := by
  intro line
  induction line with
  | nil => intro v h; exact absurd h (by simp [searchLine])
  | cons c cs ih =>
    intro v h
    rw [searchLine_cons] at h
    cases ht : tryKeywords keywords (c :: cs) with
    | some v' =>
      obtain ⟨k, hk, r, hr⟩ := tryKeywords_some_kw _ _ _ ht
      exact ⟨[], k, r.map Char.toLower, hk, by
        simpa using matchKwCI_toLower k (c :: cs) r hr⟩
    | none =>
      rw [ht] at h
      obtain ⟨pre, kw, post, hkw, heq⟩ := ih v h
      exact ⟨c.toLower :: pre, kw, post, hkw, by simp [heq]⟩

theorem searchLine_none_of_no_kw {line : List Char}
    (h : ¬ containsKeywordCI line) : searchLine line = none := by
  cases hs : searchLine line with
  | none => rfl
  | some v => exact absurd (searchLine_some_contains line v hs) h

/-! ### Concrete scan scenarios -/

/-- The world of the C1 scenario: one repository holding the single file
`config.py` whose fifth line is `password = "abc123"`. -/
def scenarioWorld : World := fun _ =>
  { rootContents :=
      [Entry.file ("config.py").data
        (some ("a = 1\nb = 2\nc = 3\nd = 4\npassword = \"abc123\"").data)],
    dirContents := fun _ => [],
    subs := fun _ => none }

/-! ### Claim C1 -/

/-- C1: for every line of the shape `keyword[:=]value` — keyword from
{password, passwd, pwd, secret, token, key}, optional surrounding whitespace,
value a non-empty run of characters excluding whitespace, quotes, `&`, `;`,
optionally wrapped in quotes — the matcher returns exactly that value; for
every line containing no such keyword (case-insensitive substring) it returns
nothing; and a file whose fifth line is `password = "abc123"` yields the
single finding `(path, "abc123", 5, that line)`. -/
theorem C1_matcher :
    (∀ kw sp1 sp2 : List Char, ∀ sep : Char, ∀ v : List Char,
      kw ∈ keywords → (∀ c ∈ sp1, isSpace c = true) →
      (sep = ':' ∨ sep = '=') → (∀ c ∈ sp2, isSpace c = true) →
      v ≠ [] → (∀ c ∈ v, isValueChar c = true) →
      searchLine (kw ++ (sp1 ++ sep :: (sp2 ++ v))) = some v) ∧
    (∀ kw sp1 sp2 : List Char, ∀ sep q qe : Char, ∀ v : List Char,
      kw ∈ keywords → (∀ c ∈ sp1, isSpace c = true) →
      (sep = ':' ∨ sep = '=') → (∀ c ∈ sp2, isSpace c = true) →
      (q = squote ∨ q = dquote) → (qe = squote ∨ qe = dquote) →
      v ≠ [] → (∀ c ∈ v, isValueChar c = true) →
      searchLine (kw ++ (sp1 ++ sep :: (sp2 ++ q :: (v ++ [qe])))) = some v) ∧
    (∀ line : List Char, ¬ containsKeywordCI line → searchLine line = none) ∧
    process_repository 2 scenarioWorld 0 [] =
      some ([(("config.py").data, ("abc123").data, 5,
              ("password = \"abc123\"").data)],
            [("config.py").data],
            [Event.scanned ("config.py").data]) := by
  refine ⟨?_, ?_, fun line h => searchLine_none_of_no_kw h, ?_⟩
  · intro kw sp1 sp2 sep v hkw hsp1 hsep hsp2 hne hall
    refine searchLine_kw kw hkw ?_
    rw [matchAfterKeyword_sep hsep hsp1]
    cases v with
    | nil => exact absurd rfl hne
    | cons d v' =>
      rw [dropSpaces_all_space hsp2,
        dropSpaces_not_space (isValueChar_not_space (hall d (by simp)))]
      exact matchValue_plain hne hall
  · intro kw sp1 sp2 sep q qe v hkw hsp1 hsep hsp2 hq hqe hne hall
    refine searchLine_kw kw hkw ?_
    rw [matchAfterKeyword_sep hsep hsp1,
      dropSpaces_all_space hsp2, dropSpaces_not_space (quote_not_space hq)]
    exact matchValue_quoted hq hqe hne hall
  · rfl

/-- Witness for C1: concrete applications of the first two conjuncts, at the
lines `pwd:v7` and `token = "abc123"` (written with explicit whitespace and
quote pieces). -/
theorem C1_matcher_witness :
    searchLine (("pwd").data ++ ([] ++ ':' :: ([] ++ ("v7").data))) =
      some ("v7").data ∧
    searchLine (("token").data ++
        ([' '] ++ '=' :: ([' '] ++ dquote :: (("abc123").data ++ [dquote])))) =
      some ("abc123").data := by
  constructor
  · exact C1_matcher.1 ("pwd").data [] [] ':' ("v7").data
      (by simp [keywords]) (by simp) (Or.inl rfl) (by simp)
      (by decide) (by decide)
  · exact C1_matcher.2.1 ("token").data [' '] [' '] '=' dquote dquote
      ("abc123").data (by simp [keywords]) (by decide) (Or.inr rfl)
      (by decide) (Or.inr rfl) (Or.inr rfl) (by decide) (by decide)

/-! ### Claims C6, C9, C10 -/

theorem checkLines_lineNum_lb : ∀ (ls : List (List Char)) (i : Nat),
    ∀ x ∈ checkLines ls i, i + 1 ≤ x.2.1 := by
  intro ls
  induction ls with
  | nil => intro i x hx; simp [checkLines] at hx
  | cons l ls ih =>
    intro i x hx
    simp only [checkLines] at hx
    cases hs : searchLine l with
    | some pw =>
      rw [hs] at hx
      rcases List.mem_cons.1 hx with rfl | hx'
      · exact Nat.le_refl _
      · have := ih (i + 1) x hx'
        omega
    | none =>
      rw [hs] at hx
      have := ih (i + 1) x hx
      omega

theorem checkLines_pairwise : ∀ (ls : List (List Char)) (i : Nat),
    (checkLines ls i).Pairwise (fun a b => a.2.1 < b.2.1) := by
  intro ls
  induction ls with
  | nil => intro i; simp [checkLines]
  | cons l ls ih =>
    intro i
    simp only [checkLines]
    cases hs : searchLine l with
    | some pw =>
      refine List.Pairwise.cons (fun b hb => ?_) (ih (i + 1))
      have := checkLines_lineNum_lb ls (i + 1) b hb
      show i + 1 < b.2.1
      omega
    | none => exact ih (i + 1)

/-- C6: the matcher reports at most one finding per line — `re.search` stops
at the leftmost matching start position (all earlier positions fail), each
line contributes at most one tuple (the line numbers in a file's result list
are pairwise distinct), and a line holding two credential-shaped substrings
yields only the first value. -/
theorem C6_first_match :
    (∀ line v : List Char, searchLine line = some v →
      ∃ i, tryKeywords keywords (line.drop i) = some v ∧
        ∀ j < i, tryKeywords keywords (line.drop j) = none) ∧
    (∀ content p : List Char,
      ((check_file_for_passwords content p).map (fun m => m.2.1)).Nodup) ∧
    check_file_for_passwords ("pwd=a pwd=b").data [] =
      [(("a").data, 1, ("pwd=a pwd=b").data)] := by
  refine ⟨?_, ?_, rfl⟩
  · intro line
    induction line with
    | nil => intro v h; simp [searchLine] at h
    | cons c cs ih =>
      intro v h
      rw [searchLine_cons] at h
      cases ht : tryKeywords keywords (c :: cs) with
      | some v' =>
        rw [ht] at h
        refine ⟨0, ?_, fun j hj => absurd hj (Nat.not_lt_zero j)⟩
        simpa [ht] using h
      | none =>
        rw [ht] at h
        obtain ⟨i, h1, h2⟩ := ih v h
        refine ⟨i + 1, by simpa using h1, fun j hj => ?_⟩
        cases j with
        | zero => simpa using ht
        | succ k => simpa using h2 k (by omega)
  · intro content p
    have hp := checkLines_pairwise (pySplitlines content) 0
    exact List.Pairwise.map _ (fun a b hab => Nat.ne_of_lt hab) hp

/-- Witness for C6: the line ` pwd=a` (leading space, so the leftmost
successful start position is positive). -/
theorem C6_first_match_witness :
    ∃ i, tryKeywords keywords ((" pwd=a").data.drop i) = some ("a").data ∧
      ∀ j < i, tryKeywords keywords ((" pwd=a").data.drop j) = none :=
  C6_first_match.1 (" pwd=a").data ("a").data rfl

theorem checkLines_src : ∀ (ls : List (List Char)) (i : Nat),
    ∀ x ∈ checkLines ls i,
    ∃ raw, ls[x.2.1 - 1 - i]? = some raw ∧ x.2.2 = pyStrip raw ∧
      searchLine raw = some x.1 := by
  intro ls
  induction ls with
  | nil => intro i x hx; simp [checkLines] at hx
  | cons l ls ih =>
    intro i x hx
    simp only [checkLines] at hx
    cases hs : searchLine l with
    | some pw =>
      rw [hs] at hx
      rcases List.mem_cons.1 hx with rfl | hx'
      · refine ⟨l, ?_, rfl, hs⟩
        have h0 : i + 1 - 1 - i = 0 := by omega
        rw [h0]; simp
      · obtain ⟨raw, h1, h2, h3⟩ := ih (i + 1) x hx'
        have hge := checkLines_lineNum_lb ls (i + 1) x hx'
        refine ⟨raw, ?_, h2, h3⟩
        have hidx : x.2.1 - 1 - i = (x.2.1 - 1 - (i + 1)) + 1 := by omega
        rw [hidx]
        simpa using h1
    | none =>
      rw [hs] at hx
      obtain ⟨raw, h1, h2, h3⟩ := ih (i + 1) x hx
      have hge := checkLines_lineNum_lb ls (i + 1) x hx
      refine ⟨raw, ?_, h2, h3⟩
      have hidx : x.2.1 - 1 - i = (x.2.1 - 1 - (i + 1)) + 1 := by omega
      rw [hidx]
      simpa using h1

/-- C9: the full-line component stored in each result tuple is the matching
source line with leading and trailing whitespace removed (`line.strip()`),
not the raw line; concretely, scanning a file whose single line is
`"  password=x  "` records the full line as `"password=x"`. -/
theorem C9_stripped_line :
    (∀ content p : List Char, ∀ x ∈ check_file_for_passwords content p,
      ∃ raw, (pySplitlines content)[x.2.1 - 1]? = some raw ∧
        x.2.2 = pyStrip raw ∧ searchLine raw = some x.1) ∧
    check_file_for_passwords ("  password=x  ").data [] =
      [(("x").data, 1, ("password=x").data)] := by
  refine ⟨?_, rfl⟩
  intro content p x hx
  have h := checkLines_src (pySplitlines content) 0 x hx
  simpa using h

/-- Witness for C9: the single tuple produced from the file
`"  password=x  "` indeed comes from stripping that raw line. -/
theorem C9_stripped_line_witness :
    ∃ raw, (pySplitlines ("  password=x  ").data)[(1 : Nat) - 1]? = some raw ∧
      ("password=x").data = pyStrip raw ∧ searchLine raw = some ("x").data := by
  have h := C9_stripped_line.1 ("  password=x  ").data []
    (("x").data, 1, ("password=x").data) (by rw [C9_stripped_line.2]; simp)
  simpa using h

/-- C10: `check_file_for_passwords` is deterministic and its result does not
depend on the `file_path` argument: the function body never reads it. -/
theorem C10_path_independent (file_content p1 p2 : List Char) :
    check_file_for_passwords file_content p1 =
      check_file_for_passwords file_content p2 := rfl

/-! ### Claim C4 -/

/-- C4: the written table has exactly `N + 1` rows for `N` findings — the
fixed header row followed by one row per finding, in the order received,
whose four cells are the components of the original tuple. -/
theorem C4_report_shape :
    ∀ results : List Finding,
      (write_to_excel results).length = results.length + 1 ∧
      (write_to_excel results).head? =
        some [CellVal.str ("File Path").data,
          CellVal.str ("Matched String").data,
          CellVal.str ("Line Number").data,
          CellVal.str ("Full Line").data] ∧
      (∀ (i : Nat) (r : Finding), results[i]? = some r →
        (write_to_excel results)[i + 1]? =
          some [CellVal.str r.1, CellVal.str r.2.1, CellVal.nat r.2.2.1,
            CellVal.str r.2.2.2]) := by
  intro results
  refine ⟨by simp [write_to_excel], rfl, ?_⟩
  intro i r h
  simp [write_to_excel, h]

/-- Witness for C4: the row written for the one finding of a singleton list. -/
theorem C4_report_shape_witness :
    (write_to_excel [(("a.py").data, ("s3cr3t").data, 3, ("pwd=s3cr3t").data)])[0 + 1]? =
      some [CellVal.str ("a.py").data, CellVal.str ("s3cr3t").data,
        CellVal.nat 3, CellVal.str ("pwd=s3cr3t").data] :=
  (C4_report_shape [(("a.py").data, ("s3cr3t").data, 3, ("pwd=s3cr3t").data)]).2.2
    0 (("a.py").data, ("s3cr3t").data, 3, ("pwd=s3cr3t").data) (by simp)

/-! ### Claims C5 and C7 -/

/-- A world with one empty repository. -/
def emptyWorld : World := fun _ =>
  { rootContents := [], dirContents := fun _ => [], subs := fun _ => none }

/-- C5: when the walk completes, the driver writes the report exactly when the
findings list is non-empty; an empty findings list produces the no-findings
outcome and the writer is never invoked. -/
theorem C5_driver :
    ∀ (env : Env) (fuel : Nat) (w : World) (rid : Nat)
      (fs : List Finding) (v : List (List Char)) (tr : List Event),
      pyFalsy env.github_token = false → pyFalsy env.github_repo = false →
      process_repository fuel w rid [] = some (fs, v, tr) →
      (fs = [] → main env true fuel w rid = some MainOutcome.noFindings) ∧
      (fs ≠ [] →
        main env true fuel w rid =
          some (MainOutcome.wroteReport (write_to_excel fs))) := by
  intro env fuel w rid fs v tr ht hr hp
  constructor
  · intro hfs
    subst hfs
    simp [main, ht, hr, hp]
  · intro hfs
    simp [main, ht, hr, hp, hfs]

/-- Witness for C5: a repository with no contents produces the no-findings
outcome. -/
theorem C5_driver_witness :
    main ⟨some ("t0k").data, some ("owner/repo").data⟩ true 1 emptyWorld 0 =
      some MainOutcome.noFindings :=
  (C5_driver ⟨some ("t0k").data, some ("owner/repo").data⟩ 1 emptyWorld 0
    [] [] [] rfl rfl rfl).1 rfl

/-- C7: a missing (or empty) `GITHUB_TOKEN` makes the driver return the
missing-token report immediately, and with the token present a missing
`GITHUB_REPO` makes it return the missing-repo report — in both cases for
every connection outcome, world and fuel, so no network call, no walk and no
write can have occurred. -/
theorem C7_config_guard :
    ∀ (env : Env) (c : Bool) (fuel : Nat) (w : World) (rid : Nat),
      (pyFalsy env.github_token = true →
        main env c fuel w rid = some MainOutcome.missingToken) ∧
      (pyFalsy env.github_token = false → pyFalsy env.github_repo = true →
        main env c fuel w rid = some MainOutcome.missingRepo) := by
  intro env c fuel w rid
  constructor
  · intro h
    simp [main, h]
  · intro h1 h2
    simp [main, h1, h2]

/-- Witness for C7: unset token, then empty-string repo, with zero fuel (the
walk could not even start) and an arbitrary connection outcome. -/
theorem C7_config_guard_witness :
    main ⟨none, some ("owner/repo").data⟩ false 0 emptyWorld 0 =
      some MainOutcome.missingToken ∧
    main ⟨some ("t0k").data, some []⟩ false 0 emptyWorld 0 =
      some MainOutcome.missingRepo :=
  ⟨(C7_config_guard ⟨none, some ("owner/repo").data⟩ false 0 emptyWorld 0).1 rfl,
   (C7_config_guard ⟨some ("t0k").data, some []⟩ false 0 emptyWorld 0).2 rfl rfl⟩

/-! ### Claim C2 -/

/-- A submodule cycle: the sole repository's root holds one submodule that
resolves back to the repository itself. -/
def cyclicWorld : World := fun _ =>
  { rootContents := [Entry.submodule ("s").data],
    dirContents := fun _ => [],
    subs := fun _ => some 0 }

theorem cyclicWorld_root :
    (cyclicWorld 0).rootContents = [Entry.submodule ['s']] := rfl

theorem cyclicWorld_subs : (cyclicWorld 0).subs ['s'] = some 0 := rfl

theorem runLoop_cyclic : ∀ (fuel : Nat) (vis : List (List Char)),
    runLoop fuel cyclicWorld 0 [Entry.submodule ['s']] vis = none := by
  intro fuel
  induction fuel with
  | zero => intro vis; rfl
  | succ n ih =>
    intro vis
    simp only [runLoop, cyclicWorld_subs, cyclicWorld_root]
    rw [ih vis]

/-- C2: the claim that `process_repository` terminates on a submodule cycle
fails — `processed_files` records only file paths, so the walk re-enters the
cycling repository at every resolution and never completes, for any step
bound.  (The function's own docstring promises that it "prevents infinite
recursion".) -/
theorem C2_cycle_divergence :
    ∀ (fuel : Nat) (vis : List (List Char)),
      process_repository fuel cyclicWorld 0 vis = none :=
  fun fuel vis => runLoop_cyclic fuel vis

/-! ### Claim C8 -/

/-- A world with one repository holding an unreadable file followed by a
scannable file. -/
def errWorld : World := fun _ =>
  { rootContents := [Entry.file ("bad.bin").data none,
      Entry.file ("good.txt").data (some ("pwd=a").data)],
    dirContents := fun _ => [],
    subs := fun _ => none }

/-- C8: a per-file read/decode failure is caught — the path is logged, the
file contributes zero findings, and the walk continues with the remaining
entries; likewise a failed submodule resolution is logged and the walk
continues.  Concretely, the unreadable `bad.bin` does not stop `good.txt`
from being scanned. -/
theorem C8_error_recovery :
    (∀ (fuel : Nat) (w : World) (rid : Nat) (p : List Char)
       (rest : List Entry) (vis : List (List Char)) (fs : List Finding)
       (v : List (List Char)) (tr : List Event),
      p ∉ vis → runLoop fuel w rid rest (p :: vis) = some (fs, v, tr) →
      runLoop (fuel + 1) w rid (Entry.file p none :: rest) vis =
        some (fs, v, Event.readError p :: tr)) ∧
    (∀ (fuel : Nat) (w : World) (rid : Nat) (p : List Char)
       (rest : List Entry) (vis : List (List Char)) (fs : List Finding)
       (v : List (List Char)) (tr : List Event),
      (w rid).subs p = none → runLoop fuel w rid rest vis = some (fs, v, tr) →
      runLoop (fuel + 1) w rid (Entry.submodule p :: rest) vis =
        some (fs, v, Event.subFailed p :: tr)) ∧
    process_repository 3 errWorld 0 [] =
      some ([(("good.txt").data, ("a").data, 1, ("pwd=a").data)],
            [("good.txt").data, ("bad.bin").data],
            [Event.readError ("bad.bin").data,
             Event.scanned ("good.txt").data]) := by
  refine ⟨?_, ?_, rfl⟩
  · intro fuel w rid p rest vis fs v tr hp hrec
    simp only [runLoop]
    rw [if_neg hp]
    simp [hrec]
  · intro fuel w rid p rest vis fs v tr hs hrec
    simp only [runLoop]
    rw [hs]
    simp [hrec]

/-- Witness for C8: the unreadable first file of `errWorld` is logged and the
second file is still scanned. -/
theorem C8_error_recovery_witness :
    runLoop 3 errWorld 0
        (Entry.file ("bad.bin").data none ::
          [Entry.file ("good.txt").data (some ("pwd=a").data)]) [] =
      some ([(("good.txt").data, ("a").data, 1, ("pwd=a").data)],
            [("good.txt").data, ("bad.bin").data],
            [Event.readError ("bad.bin").data,
             Event.scanned ("good.txt").data]) :=
  C8_error_recovery.1 2 errWorld 0 ("bad.bin").data
    [Entry.file ("good.txt").data (some ("pwd=a").data)] []
    [(("good.txt").data, ("a").data, 1, ("pwd=a").data)]
    [("good.txt").data, ("bad.bin").data]
    [Event.scanned ("good.txt").data] (by simp) rfl

/-! ### Claim C3 -/

/-- The file paths actually scanned during a walk, in order. -/
def scannedPaths (tr : List Event) : List (List Char) :=
  tr.filterMap (fun e => match e with | Event.scanned p => some p | _ => none)

@[simp] theorem scannedPaths_nil : scannedPaths [] = [] := rfl

@[simp] theorem scannedPaths_scanned (p : List Char) (tr : List Event) :
    scannedPaths (Event.scanned p :: tr) = p :: scannedPaths tr := rfl

@[simp] theorem scannedPaths_skipped (p : List Char) (tr : List Event) :
    scannedPaths (Event.skipped p :: tr) = scannedPaths tr := rfl

@[simp] theorem scannedPaths_readError (p : List Char) (tr : List Event) :
    scannedPaths (Event.readError p :: tr) = scannedPaths tr := rfl

@[simp] theorem scannedPaths_dirListed (p : List Char) (tr : List Event) :
    scannedPaths (Event.dirListed p :: tr) = scannedPaths tr := rfl

@[simp] theorem scannedPaths_subEntered (p : List Char) (tr : List Event) :
    scannedPaths (Event.subEntered p :: tr) = scannedPaths tr := rfl

@[simp] theorem scannedPaths_subFailed (p : List Char) (tr : List Event) :
    scannedPaths (Event.subFailed p :: tr) = scannedPaths tr := rfl

@[simp] theorem scannedPaths_unknownType (ty p : List Char) (tr : List Event) :
    scannedPaths (Event.unknownType ty p :: tr) = scannedPaths tr := rfl

@[simp] theorem scannedPaths_append (a b : List Event) :
    scannedPaths (a ++ b) = scannedPaths a ++ scannedPaths b :=
  List.filterMap_append a b _

theorem check_keys_nodup (content p : List Char) :
    ((check_file_for_passwords content p).map (fun m => (p, m.2.1))).Nodup := by
  have hp := checkLines_pairwise (pySplitlines content) 0
  refine List.Pairwise.map _ (fun a b hab => ?_) hp
  simp only [ne_eq, Prod.mk.injEq, not_and]
  intro _ h2
  exact absurd h2 (Nat.ne_of_lt hab)

/-- The walk invariant: the visited set grows monotonically, a path is
scanned only if it was unvisited at scan time and is visited afterwards,
no path is scanned twice, every finding's path was scanned, and no
`(path, line number)` pair is reported twice. -/
theorem runLoop_invariant : ∀ (fuel : Nat) (w : World) (rid : Nat)
    (q : List Entry) (vis : List (List Char)) (fs : List Finding)
    (v : List (List Char)) (tr : List Event),
    runLoop fuel w rid q vis = some (fs, v, tr) →
    (∀ p, p ∈ vis → p ∈ v) ∧
    (∀ p, p ∈ scannedPaths tr → p ∉ vis ∧ p ∈ v) ∧
    (scannedPaths tr).Nodup ∧
    (∀ f ∈ fs, f.1 ∈ scannedPaths tr) ∧
    (fs.map (fun f => (f.1, f.2.2.1))).Nodup := by
  intro fuel
  induction fuel with
  | zero =>
    intro w rid q vis fs v tr h
    exact absurd h (by simp [runLoop])
  | succ n ih =>
    intro w rid q vis fs v tr h
    cases q with
    | nil =>
      simp only [runLoop, Option.some.injEq, Prod.mk.injEq] at h
      obtain ⟨rfl, rfl, rfl⟩ := h
      simp
    | cons e rest =>
      cases e with
      | file p c =>
        simp only [runLoop] at h
        by_cases hp : p ∈ vis
        · rw [if_pos hp] at h
          cases hrec : runLoop n w rid rest vis with
          | none => rw [hrec] at h; exact absurd h (by simp)
          | some r =>
            obtain ⟨fs', v', tr'⟩ := r
            rw [hrec] at h
            simp only [Option.map_some', Option.some.injEq,
              Prod.mk.injEq] at h
            obtain ⟨rfl, rfl, rfl⟩ := h
            obtain ⟨hA, hB, hC, hD, hE⟩ := ih w rid rest vis _ _ _ hrec
            exact ⟨hA, by simpa using hB, by simpa using hC,
              fun f hf => by simpa using hD f hf, hE⟩
        · rw [if_neg hp] at h
          cases c with
          | some content =>
            cases hrec : runLoop n w rid rest (p :: vis) with
            | none => rw [hrec] at h; exact absurd h (by simp)
            | some r =>
              obtain ⟨fs', v', tr'⟩ := r
              rw [hrec] at h
              simp only [Option.map_some', Option.some.injEq,
                Prod.mk.injEq] at h
              obtain ⟨rfl, rfl, rfl⟩ := h
              obtain ⟨hA, hB, hC, hD, hE⟩ := ih w rid rest (p :: vis) _ _ _ hrec
              have hmemv : p ∈ v' := hA p (by simp)
              refine ⟨fun q hq => hA q (by simp [hq]), ?_, ?_, ?_, ?_⟩
              · intro q hq
                rw [scannedPaths_scanned] at hq
                rcases List.mem_cons.1 hq with rfl | hq'
                · exact ⟨hp, hmemv⟩
                · have := hB q hq'
                  exact ⟨fun hc => this.1 (by simp [hc]), this.2⟩
              · rw [scannedPaths_scanned]
                refine List.Pairwise.cons (fun q hq hc => ?_) hC
                subst hc
                exact (hB p hq).1 (by simp)
              · intro f hf
                rw [scannedPaths_scanned]
                rcases List.mem_append.1 hf with hf0 | hf'
                · obtain ⟨m, _, rfl⟩ := List.mem_map.1 hf0
                  exact List.mem_cons_self _ _
                · exact List.mem_cons_of_mem _ (hD f hf')
              · rw [List.map_append]
                refine List.Nodup.append ?_ hE ?_
                · have hk := check_keys_nodup content p
                  simpa [List.map_map, Function.comp] using hk
                · intro a ha hb
                  obtain ⟨m, hm, rfl⟩ := List.mem_map.1 ha
                  obtain ⟨m0, hm0, rfl⟩ := List.mem_map.1 hm
                  obtain ⟨f', hf', hkey⟩ := List.mem_map.1 hb
                  have hpmem : f'.1 ∈ scannedPaths tr' := hD f' hf'
                  have hnv : f'.1 ∉ p :: vis := (hB f'.1 hpmem).1
                  have heq : f'.1 = p := congrArg Prod.fst hkey
                  exact hnv (by simp [heq])
          | none =>
            cases hrec : runLoop n w rid rest (p :: vis) with
            | none => rw [hrec] at h; exact absurd h (by simp)
            | some r =>
              obtain ⟨fs', v', tr'⟩ := r
              rw [hrec] at h
              simp only [Option.map_some', Option.some.injEq,
                Prod.mk.injEq] at h
              obtain ⟨rfl, rfl, rfl⟩ := h
              obtain ⟨hA, hB, hC, hD, hE⟩ := ih w rid rest (p :: vis) _ _ _ hrec
              refine ⟨fun q hq => hA q (by simp [hq]), ?_,
                by simpa using hC, fun f hf => by simpa using hD f hf, hE⟩
              intro q hq
              rw [scannedPaths_readError] at hq
              have := hB q hq
              exact ⟨fun hc => this.1 (by simp [hc]), this.2⟩
      | dir p =>
        simp only [runLoop] at h
        cases hrec : runLoop n w rid (rest ++ (w rid).dirContents p) vis with
        | none => rw [hrec] at h; exact absurd h (by simp)
        | some r =>
          obtain ⟨fs', v', tr'⟩ := r
          rw [hrec] at h
          simp only [Option.map_some', Option.some.injEq, Prod.mk.injEq] at h
          obtain ⟨rfl, rfl, rfl⟩ := h
          obtain ⟨hA, hB, hC, hD, hE⟩ := ih w rid _ vis _ _ _ hrec
          exact ⟨hA, by simpa using hB, by simpa using hC,
            fun f hf => by simpa using hD f hf, hE⟩
      | submodule p =>
        simp only [runLoop] at h
        split at h
        · cases hrec : runLoop n w rid rest vis with
          | none => rw [hrec] at h; exact absurd h (by simp)
          | some r =>
            obtain ⟨fs', v', tr'⟩ := r
            rw [hrec] at h
            simp only [Option.map_some', Option.some.injEq, Prod.mk.injEq] at h
            obtain ⟨rfl, rfl, rfl⟩ := h
            obtain ⟨hA, hB, hC, hD, hE⟩ := ih w rid rest vis _ _ _ hrec
            exact ⟨hA, by simpa using hB, by simpa using hC,
              fun f hf => by simpa using hD f hf, hE⟩
        · rename_i rid2 hsub
          cases hrec1 : runLoop n w rid2 (w rid2).rootContents vis with
          | none => rw [hrec1] at h; exact absurd h (by simp)
          | some r1 =>
            obtain ⟨fs1, v1, tr1⟩ := r1
            rw [hrec1] at h
            dsimp only at h
            cases hrec2 : runLoop n w rid rest v1 with
            | none => rw [hrec2] at h; exact absurd h (by simp)
            | some r2 =>
              obtain ⟨fs2, v2, tr2⟩ := r2
              rw [hrec2] at h
              simp only [Option.map_some', Option.some.injEq,
                Prod.mk.injEq] at h
              obtain ⟨rfl, rfl, rfl⟩ := h
              obtain ⟨hA1, hB1, hC1, hD1, hE1⟩ := ih w rid2 _ vis _ _ _ hrec1
              obtain ⟨hA2, hB2, hC2, hD2, hE2⟩ := ih w rid rest v1 _ _ _ hrec2
              simp only [scannedPaths_append, scannedPaths_subEntered,
                List.map_append]
              refine ⟨fun q hq => hA2 q (hA1 q hq), ?_, ?_, ?_, ?_⟩
              · intro q hq
                rcases List.mem_append.1 hq with hq1 | hq2
                · obtain ⟨hnv, hv1⟩ := hB1 q hq1
                  exact ⟨hnv, hA2 q hv1⟩
                · obtain ⟨hnv1, hv2⟩ := hB2 q hq2
                  exact ⟨fun hc => hnv1 (hA1 q hc), hv2⟩
              · refine List.Nodup.append hC1 hC2 ?_
                intro a ha1 ha2
                exact (hB2 a ha2).1 ((hB1 a ha1).2)
              · intro f hf
                rcases List.mem_append.1 hf with hf1 | hf2
                · exact List.mem_append.2 (Or.inl (hD1 f hf1))
                · exact List.mem_append.2 (Or.inr (hD2 f hf2))
              · refine List.Nodup.append hE1 hE2 ?_
                intro a ha hb
                obtain ⟨f1, hf1, rfl⟩ := List.mem_map.1 ha
                obtain ⟨f2, hf2, hkey⟩ := List.mem_map.1 hb
                have h1v : f1.1 ∈ v1 := (hB1 f1.1 (hD1 f1 hf1)).2
                have h2nv : f2.1 ∉ v1 := (hB2 f2.1 (hD2 f2 hf2)).1
                have hf12 : f2.1 = f1.1 :=
                  congrArg (fun x : List Char × Nat => x.1) hkey
                exact h2nv (hf12 ▸ h1v)
      | other ty p =>
        simp only [runLoop] at h
        cases hrec : runLoop n w rid rest vis with
        | none => rw [hrec] at h; exact absurd h (by simp)
        | some r =>
          obtain ⟨fs', v', tr'⟩ := r
          rw [hrec] at h
          simp only [Option.map_some', Option.some.injEq, Prod.mk.injEq] at h
          obtain ⟨rfl, rfl, rfl⟩ := h
          obtain ⟨hA, hB, hC, hD, hE⟩ := ih w rid rest vis _ _ _ hrec
          exact ⟨hA, by simpa using hB, by simpa using hC,
            fun f hf => by simpa using hD f hf, hE⟩

/-- Two submodules (`s1`, `s2`) of the root repository both resolve to the
same repository 1, whose root holds the directory `d` with one file `d/f`;
every path reached through `s2` was already reached through `s1`. -/
def dupSubWorld : World := fun i =>
  if i = 0 then
    { rootContents := [Entry.submodule ("s1").data,
        Entry.submodule ("s2").data],
      dirContents := fun _ => [],
      subs := fun _ => some 1 }
  else
    { rootContents := [Entry.dir ("d").data],
      dirContents := fun p =>
        if p = ("d").data then
          [Entry.file ("d/f").data (some ("password=x").data)]
        else [],
      subs := fun _ => none }

/-- Counterexample to C3 as stated: in `dupSubWorld` the walk completes and
the directory path `d` is traversed (listed) twice — the visited-set check
guards only file entries, so a non-file path can be processed again. -/
theorem C3_traversal_counterexample :
    (process_repository 20 dupSubWorld 0 []).map
        (fun r => r.2.2.count (Event.dirListed ("d").data)) = some 2 := by
  rfl

/-- C3 (amended): the visited-set membership check applies only to file
entries — in any completed walk no file path is ever scanned twice, and no
`(file path, line number)` pair is reported twice, so a given path
contributes findings at most once per password-shaped line; directory and
submodule paths are not checked and may be traversed repeatedly. -/
theorem C3_file_scanned_once :
    ∀ (fuel : Nat) (w : World) (rid : Nat) (q : List Entry)
      (vis : List (List Char)) (fs : List Finding) (v : List (List Char))
      (tr : List Event),
      runLoop fuel w rid q vis = some (fs, v, tr) →
      (scannedPaths tr).Nodup ∧
      (fs.map (fun f => (f.1, f.2.2.1))).Nodup := by
  intro fuel w rid q vis fs v tr h
  obtain ⟨-, -, hC, -, hE⟩ := runLoop_invariant fuel w rid q vis fs v tr h
  exact ⟨hC, hE⟩

/-- Witness for C3 (amended): the completed walk of `dupSubWorld`, in which
`d/f` is reachable through both submodule aliases yet is scanned exactly
once. -/
theorem C3_file_scanned_once_witness :
    (scannedPaths
        [Event.subEntered ("s1").data, Event.dirListed ("d").data,
         Event.scanned ("d/f").data, Event.subEntered ("s2").data,
         Event.dirListed ("d").data, Event.skipped ("d/f").data]).Nodup ∧
    ([(("d/f").data, ("x").data, 1, ("password=x").data)].map
        (fun f : Finding => (f.1, f.2.2.1))).Nodup :=
  C3_file_scanned_once 20 dupSubWorld 0
    [Entry.submodule ("s1").data, Entry.submodule ("s2").data] []
    [(("d/f").data, ("x").data, 1, ("password=x").data)]
    [("d/f").data]
    [Event.subEntered ("s1").data, Event.dirListed ("d").data,
     Event.scanned ("d/f").data, Event.subEntered ("s2").data,
     Event.dirListed ("d").data, Event.skipped ("d/f").data] rfl

end GithubScan
